import Mathlib

/-!
Verification development for the `master_contact` ETL pipeline
(`etl/scripts/transform.py`, `etl/scripts/load.py`, `etl/scripts/main.py`).

The Python source is shallowly embedded: pandas data frames become lists of
records, database tables become explicit state records threaded through the
functions, and the fallible external operations (SQL insert success, audit-row
creation, index seeding) become boolean parameters describing the outcome of
the corresponding call.  Machine-level details follow the source: the profile
hash is a genuine MD5 digest of the Python `str()` rendering of the sorted key
list, pandas null semantics (missing matches missing in `isin` and
`duplicated`) are modelled by `Option` equality, and Python string operations
(`str.replace`, `str.capitalize`, `str.strip`, truthiness) are reproduced for
the ASCII fragment the pipeline manipulates.
-/

namespace MasterContact

/-! ## Python string helpers (ASCII fragment) -/

/-- Python `str.isspace` characters for the ASCII range (the whitespace
stripped by `str.strip` and matched by the regex `\\s`). -/
def pyIsSpace (c : Char) : Bool :=
  c = ' ' || c = '\t' || c = '\n' || c = '\r' || c = Char.ofNat 11 ||
    c = Char.ofNat 12

/-- Python `str.strip()` (ASCII whitespace). -/
def pyStrip (s : String) : String :=
  String.mk (((s.toList.dropWhile pyIsSpace).reverse.dropWhile
    pyIsSpace).reverse)

/-- Python `str.lower()` (ASCII behaviour, which is all the pipeline
feeds it). -/
def pyLower (s : String) : String :=
  String.mk (s.toList.map Char.toLower)

/-- Python `str.capitalize()`: first character upper-cased, the rest
lower-cased (ASCII behaviour, which is all the pipeline feeds it). -/
def pyCapitalize (s : String) : String :=
  match s.toList with
  | [] => ""
  | c :: cs => String.mk (c.toUpper :: cs.map Char.toLower)

/-- Python `netloc.replace("www.", "")` on the character list: every
non-overlapping occurrence of `www.` is removed, scanning left to right.
Note the source removes every occurrence, not only a leading label. -/
def removeWwwList : List Char → List Char
  | 'w' :: 'w' :: 'w' :: '.' :: rest => removeWwwList rest
  | c :: rest => c :: removeWwwList rest
  | [] => []

/-- Python `s.replace("www.", "")` lifted to `String`. -/
def removeWww (s : String) : String :=
  String.mk (removeWwwList s.toList)

/-- Python `s.replace("nan", "")` on the character list. -/
def removeNanList : List Char → List Char
  | 'n' :: 'a' :: 'n' :: rest => removeNanList rest
  | c :: rest => c :: removeNanList rest
  | [] => []

/-- Python `s.replace("None", "")` on the character list. -/
def removeNoneList : List Char → List Char
  | 'N' :: 'o' :: 'n' :: 'e' :: rest => removeNoneList rest
  | c :: rest => c :: removeNoneList rest
  | [] => []

/-- Characters removed by the regex `[()\-\s]` in `clean_data`'s phone
cleaning (parentheses, hyphen, whitespace). -/
def isPhoneJunk (c : Char) : Bool :=
  c = '(' || c = ')' || c = '-' || c = ' ' || c = '\t' || c = '\n' || c = '\r' ||
    c = Char.ofNat 11 || c = Char.ofNat 12

/-- Test whether `pat` occurs as a contiguous substring of `s` (Python's
`pat in s`), via the character lists. -/
def containsSub (s pat : String) : Bool :=
  (List.range (s.length + 1)).any fun i => (s.toList.drop i).take pat.length = pat.toList

/-- The single-quote character, used by Python's `repr` of strings. -/
def sq : Char := Char.ofNat 39

/-- Python `repr` of a string that contains no quote or escape characters:
the text wrapped in single quotes.  The ETL feeds column names, which are
plain text, into `str(sorted_keys)`. -/
def pyReprStr (s : String) : String :=
  String.mk (sq :: s.toList ++ [sq])

/-- Python `str(list_of_strings)`: elements rendered by `repr`, joined with
a comma and space, wrapped in square brackets. -/
def pyStrList (l : List String) : String :=
  "[" ++ String.intercalate ", " (l.map pyReprStr) ++ "]"

/-! ## MD5

A faithful implementation of MD5 over byte lists, used by
`get_or_create_profile_id` in `etl/scripts/load.py` to hash the sorted key
list.  Arithmetic is `Nat` with explicit reduction mod `2^32`. -/

namespace MD5

def M32 : Nat := 4294967296

/-- 32-bit left rotation. -/
def rotl (x s : Nat) : Nat :=
  (((x <<< s) % M32) ||| (x >>> (32 - s))) % M32

/-- Per-round left-rotation amounts. -/
def sTable : List Nat :=
  [7, 12, 17, 22, 7, 12, 17, 22, 7, 12, 17, 22, 7, 12, 17, 22,
   5, 9, 14, 20, 5, 9, 14, 20, 5, 9, 14, 20, 5, 9, 14, 20,
   4, 11, 16, 23, 4, 11, 16, 23, 4, 11, 16, 23, 4, 11, 16, 23,
   6, 10, 15, 21, 6, 10, 15, 21, 6, 10, 15, 21, 6, 10, 15, 21]

/-- Per-round additive constants (the binary integer parts of the sines). -/
def kTable : List Nat :=
  [0xd76aa478, 0xe8c7b756, 0x242070db, 0xc1bdceee,
   0xf57c0faf, 0x4787c62a, 0xa8304613, 0xfd469501,
   0x698098d8, 0x8b44f7af, 0xffff5bb1, 0x895cd7be,
   0x6b901122, 0xfd987193, 0xa679438e, 0x49b40821,
   0xf61e2562, 0xc040b340, 0x265e5a51, 0xe9b6c7aa,
   0xd62f105d, 0x02441453, 0xd8a1e681, 0xe7d3fbc8,
   0x21e1cde6, 0xc33707d6, 0xf4d50d87, 0x455a14ed,
   0xa9e3e905, 0xfcefa3f8, 0x676f02d9, 0x8d2a4c8a,
   0xfffa3942, 0x8771f681, 0x6d9d6122, 0xfde5380c,
   0xa4beea44, 0x4bdecfa9, 0xf6bb4b60, 0xbebfbc70,
   0x289b7ec6, 0xeaa127fa, 0xd4ef3085, 0x04881d05,
   0xd9d4d039, 0xe6db99e5, 0x1fa27cf8, 0xc4ac5665,
   0xf4292244, 0x432aff97, 0xab9423a7, 0xfc93a039,
   0x655b59c3, 0x8f0ccc92, 0xffeff47d, 0x85845dd1,
   0x6fa87e4f, 0xfe2ce6e0, 0xa3014314, 0x4e0811a1,
   0xf7537e82, 0xbd3af235, 0x2ad7d2bb, 0xeb86d391]

/-- Little-endian byte rendering of `n` on `k` bytes. -/
def leBytes (n k : Nat) : List Nat :=
  (List.range k).map fun i => (n >>> (8 * i)) % 256

/-- MD5 padding: append `0x80`, zero bytes up to 56 mod 64, then the
64-bit little-endian bit length of the original message. -/
def pad (msg : List Nat) : List Nat :=
  let len := msg.length
  let zeros := (56 + 64 - ((len + 1) % 64)) % 64
  msg ++ [128] ++ List.replicate zeros 0 ++ leBytes ((len * 8) % 2 ^ 64) 8

/-- Group a byte list into 32-bit little-endian words. -/
def toWords : List Nat → List Nat
  | b0 :: b1 :: b2 :: b3 :: rest =>
      (b0 + 256 * b1 + 65536 * b2 + 16777216 * b3) :: toWords rest
  | _ => []

/-- Split a list into chunks of 64 elements (structural recursion on a fuel
argument so that the kernel can evaluate it). -/
def chunksAux : Nat → List Nat → List (List Nat)
  | 0, _ => []
  | _, [] => []
  | fuel + 1, l => (l.take 64) :: chunksAux fuel (l.drop 64)

/-- Split a list into chunks of 64 elements. -/
def chunks64 (l : List Nat) : List (List Nat) :=
  chunksAux l.length l

/-- Bitwise complement on 32 bits. -/
def not32 (x : Nat) : Nat := Nat.xor (x % M32) 4294967295

/-- One MD5 round: `i` is the round index, `m` the 16 message words. -/
def step (m : List Nat) (st : Nat × Nat × Nat × Nat) (i : Nat) :
    Nat × Nat × Nat × Nat :=
  let a := st.1
  let b := st.2.1
  let c := st.2.2.1
  let d := st.2.2.2
  let f :=
    if i < 16 then (b.land c).lor ((not32 b).land d)
    else if i < 32 then (d.land b).lor ((not32 d).land c)
    else if i < 48 then Nat.xor (Nat.xor b c) d
    else Nat.xor c (b.lor (not32 d))
  let g :=
    if i < 16 then i
    else if i < 32 then (5 * i + 1) % 16
    else if i < 48 then (3 * i + 5) % 16
    else (7 * i) % 16
  let f' := (f + a + kTable.getD i 0 + m.getD g 0) % M32
  (d, (b + rotl f' (sTable.getD i 0)) % M32, b, c)

/-- Process one 64-byte block, updating the running state. -/
def processBlock (st : Nat × Nat × Nat × Nat) (block : List Nat) :
    Nat × Nat × Nat × Nat :=
  let m := toWords block
  let r := (List.range 64).foldl (step m) st
  ((st.1 + r.1) % M32, (st.2.1 + r.2.1) % M32,
   (st.2.2.1 + r.2.2.1) % M32, (st.2.2.2 + r.2.2.2) % M32)

/-- MD5 digest of a byte list, as 16 bytes. -/
def md5Bytes (msg : List Nat) : List Nat :=
  let r := (chunks64 (pad msg)).foldl processBlock
    (0x67452301, 0xefcdab89, 0x98badcfe, 0x10325476)
  leBytes r.1 4 ++ leBytes r.2.1 4 ++ leBytes r.2.2.1 4 ++ leBytes r.2.2.2 4

/-- Lower-case hexadecimal digit. -/
def hexDigit (n : Nat) : Char :=
  if n < 10 then Char.ofNat (48 + n) else Char.ofNat (87 + n)

/-- Two lower-case hex digits for one byte. -/
def hexByte (b : Nat) : List Char :=
  [hexDigit (b / 16), hexDigit (b % 16)]

/-- Python `hashlib.md5(s.encode("utf-8")).hexdigest()` for ASCII `s`
(ASCII code points coincide with their UTF-8 bytes). -/
def md5hex (s : String) : String :=
  String.mk ((md5Bytes (s.toList.map Char.toNat)).flatMap hexByte)

end MD5

/-! ## Data model

A `Rec` is one row of the transformed data frame produced by
`apply_transformations`: the promoted structured columns plus the
`additional_info` JSON payload.  Missing values (pandas `None`/`NaN`) are
`Option.none`; after `clean_data` both flavours of missing have been collapsed
to `None` by the source itself, so one `none` is faithful. -/

structure Rec where
  company_name : Option String
  url : Option String
  phone_number : Option String
  industry : Option String
  is_b2b : Option Bool
  customer_target_segments : Option String
  tags : List String
  additional_info : String
  deriving Repr, DecidableEq

/-- A convenient all-null row for building concrete instances. -/
def Rec.nullRow : Rec :=
  ⟨none, none, none, none, none, none, [], "\x7b\x7d"⟩

/-! ## `transform.clean_data` -/

/-- The netloc extraction performed by `urllib.parse.urlparse(url).netloc`
for URLs of the shape the cleaner builds (a scheme is always present because
the source prepends `http://` when `://` is absent): the text after the first
`://`, up to the first `/`, `?` or `#`.  Scheme-character validation, which
never fails on the `http://`-prefixed inputs, is elided. -/
def afterSchemeList : List Char → Option (List Char)
  | [] => none
  | ':' :: rest =>
      if rest.take 2 = ['/', '/'] then some (rest.drop 2) else none
  | _ :: rest => afterSchemeList rest

/-- Characters that terminate the netloc in `urlparse`. -/
def isNetlocEnd (c : Char) : Bool := c = '/' || c = '?' || c = '#'

def parseNetloc (u : String) : String :=
  match afterSchemeList u.toList with
  | none => ""
  | some rest => String.mk (rest.takeWhile fun c => !(isNetlocEnd c))

/-- `derive_name_from_url` from `etl/scripts/transform.py`: prepend `http://`
when no `://` is present, parse the netloc, remove every occurrence of
`www.` (Python `str.replace` replaces all occurrences, not only a leading
label), take the text before the first `.`, and capitalize it.  Any failure
yields `none`. -/
def derive_name_from_url (url : Option String) : Option String :=
  match url with
  | none => none
  | some u =>
    let u' := if containsSub u "://" then u else "http://" ++ u
    let netloc := parseNetloc u'
    if netloc = "" then none
    else
      let domain := removeWww netloc
      let company := String.mk (domain.toList.takeWhile fun c => !(c = '.'))
      if company = "" then none else some (pyCapitalize company)

/-- The null-or-blank test used by both the backfill mask and the
invalid-record quarantine: `isnull()` or `astype(str).str.strip() == ""`. -/
def blankName : Option String → Bool
  | none => true
  | some s => pyStrip s = ""

/-- The company-name backfill in `clean_data`.  The mask selects rows whose
name is null or blank, but the assignment is
`df.loc[mask, "company_name"].fillna(derived_names)`, and `fillna` replaces
only genuinely null entries — a blank non-null name stays blank. -/
def backfillName (r : Rec) : Rec :=
  match r.company_name with
  | none => { r with company_name := derive_name_from_url r.url }
  | some _ => r

/-- `clean_phone` from `clean_data`: drop literal `nan`/`None` artifacts,
strip the characters matched by `[()\-\s]`, and turn an empty result into
null. -/
def clean_phone : Option String → Option String
  | none => none
  | some p =>
    let s1 := String.mk (removeNoneList (removeNanList p.toList))
    let s2 := String.mk (s1.toList.filter fun c => !(isPhoneJunk c))
    if s2 = "" then none else some s2

/-- The whitespace trim applied to every promoted string column
(`additional_info` and `tags` are excluded by the source). -/
def trimFields (r : Rec) : Rec :=
  { r with
    company_name := r.company_name.map pyStrip,
    url := r.url.map pyStrip,
    phone_number := r.phone_number.map pyStrip,
    industry := r.industry.map pyStrip,
    customer_target_segments := r.customer_target_segments.map pyStrip }

/-- The intra-batch dedup:
`df.duplicated(subset=["phone_number"], keep="first")`.  pandas treats
missing values as equal to each other here, so a null phone is a key value
like any other: the first occurrence of each phone value (null included) is
kept, later occurrences are dropped.  Returns `(kept, dropped)`, both in
original row order. -/
def dedupPhones (seen : List (Option String)) : List Rec → List Rec × List Rec
  | [] => ([], [])
  | r :: rs =>
    if r.phone_number ∈ seen then
      let p := dedupPhones seen rs
      (p.1, r :: p.2)
    else
      let p := dedupPhones (r.phone_number :: seen) rs
      (r :: p.1, p.2)

/-- Output of `clean_data`: the surviving batch plus the two side sinks
(the invalid-records CSV and the dropped-duplicates CSV). -/
structure CleanResult where
  cleaned : List Rec
  invalid : List Rec
  dropped : List Rec
  deriving Repr, DecidableEq

/-- The stages of `clean_data` before the intra-batch dedup: name backfill
from URL, quarantine of rows still lacking a company name, phone
normalization, whitespace trim. -/
def preDedup (batch : List Rec) : List Rec :=
  (((batch.map backfillName).filter fun r =>
      !(blankName r.company_name)).map fun r =>
        { r with phone_number := clean_phone r.phone_number }).map trimFields

/-- `clean_data` from `etl/scripts/transform.py`, stage by stage: name
backfill from URL, quarantine of rows still lacking a company name, phone
normalization, whitespace trim, and intra-batch phone dedup. -/
def clean_data (batch : List Rec) : CleanResult :=
  let invalid := (batch.map backfillName).filter fun r => blankName r.company_name
  let p := dedupPhones [] (preDedup batch)
  ⟨p.1, invalid, p.2⟩

/-! ## `load.py`: profiles and persistence

The durable state is threaded explicitly.  `contact_profiles.contact_count`
has `DEFAULT 1` in `setup_database.py`, and the INSERT in
`get_or_create_profile_id` omits the column, so a fresh profile carries
count 1. -/

structure Profile where
  id : Nat
  profile_hash : String
  json_keys : List String
  contact_count : Nat
  deriving Repr, DecidableEq

/-- One persisted contact row: the record plus its `profile_id` column. -/
structure Contact where
  row : Rec
  profile_id : Option Nat
  deriving Repr, DecidableEq

/-- One row of `etl_runs`; `finished` stands for `finished_at` being set. -/
structure EtlRunRow where
  id : Nat
  status : String
  tag_used : Option String
  files_processed : List String
  contacts_added : Nat
  finished : Bool
  deriving Repr, DecidableEq

/-- The durable database state: the three tables touched by the pipeline,
plus the serial-id counters. -/
structure DB where
  contacts : List Contact
  profiles : List Profile
  nextProfileId : Nat
  runs : List EtlRunRow
  nextRunId : Nat
  deriving Repr, DecidableEq

/-- Lexicographic comparison of character lists by code point — the string
order Python's `sorted` uses. -/
def charListLe : List Char → List Char → Bool
  | [], _ => true
  | _ :: _, [] => false
  | a :: as, b :: bs =>
    if a.toNat < b.toNat then true
    else if b.toNat < a.toNat then false
    else charListLe as bs

/-- Python's string order: lexicographic by code point. -/
def keyLe (a b : String) : Prop := charListLe a.toList b.toList = true

instance : DecidableRel keyLe := fun a b => by
  unfold keyLe
  infer_instance

/-- Python `sorted(json_keys)`. -/
def sortedKeys (json_keys : List String) : List String :=
  List.insertionSort keyLe json_keys

/-- The profile hash computed by `get_or_create_profile_id`:
`hashlib.md5(str(sorted(json_keys)).encode("utf-8")).hexdigest()`.  The keys
are sorted but NOT deduplicated before hashing. -/
def profileHash (json_keys : List String) : String :=
  MD5.md5hex (pyStrList (sortedKeys json_keys))

/-- `get_or_create_profile_id` from `etl/scripts/load.py`.  Returns the
profile id (None for an empty key list) and the database state after the
`connection.commit()` inside the function: an existing profile has its
`contact_count` incremented by one, a missing profile is inserted with the
default count 1. -/
def get_or_create_profile_id (json_keys : List String) (db : DB) :
    Option Nat × DB :=
  if json_keys.isEmpty then (none, db)
  else
    let h := profileHash json_keys
    match db.profiles.find? (fun p => p.profile_hash == h) with
    | some p =>
      (some p.id,
       { db with profiles := db.profiles.map fun q =>
           if q.id = p.id then { q with contact_count := q.contact_count + 1 }
           else q })
    | none =>
      (some db.nextProfileId,
       { db with
         profiles :=
           db.profiles ++ [⟨db.nextProfileId, h, sortedKeys json_keys, 1⟩],
         nextProfileId := db.nextProfileId + 1 })

/-- `load_to_db` from `etl/scripts/load.py`.  An empty frame returns at once.
Otherwise `get_or_create_profile_id` runs first and commits its own
transaction; only then does `df.to_sql` insert the rows.  `insertOk` is the
outcome of that later insert: when it fails (the exception is re-raised to
the orchestrator, second component `false`), the already-committed profile
update remains in the durable state while no contact row is added. -/
def load_to_db (df : List Rec) (db : DB) (json_keys : List String)
    (insertOk : Bool) : DB × Bool :=
  if df.isEmpty then (db, true)
  else
    let r := get_or_create_profile_id json_keys db
    if insertOk then
      ({ r.2 with contacts := r.2.contacts ++ df.map fun x => ⟨x, r.1⟩ }, true)
    else (r.2, false)

/-! ## `main.py`: deduplication and run orchestration -/

/-- Pipeline configuration.  The fuzzy scorer
(`rapidfuzz.fuzz.token_sort_ratio`) is external to the repository and is
carried as an abstract similarity function on the 0–100 scale, as the spec
isolates it (`best_match` behind a narrow interface). -/
structure Config where
  enable_fuzzy_matching : Bool
  company_name_threshold : Nat
  scorer : String → String → Nat
  tag : Option String

/-- Python `str(row.get("company_name", ""))` on an optional value:
`None` renders as the string `None`. -/
def pyStrGet : Option String → String
  | none => "None"
  | some s => s

/-- The exact phone filter
`cleaned_df[~cleaned_df["phone_number"].isin(existing_phones)]`.  pandas
`isin` on an object column matches a missing entry against a missing entry
in the value list, so `Option` equality (none matches none) is the faithful
membership test. -/
def phoneFilter (known : List (Option String)) (batch : List Rec) : List Rec :=
  batch.filter fun r => !(decide (r.phone_number ∈ known))

/-- Best-scoring choice, scanning left to right and keeping the earlier
choice on ties, as `rapidfuzz.process.extract` does. -/
def bestOfAux (f : String → Nat) (acc : Option (String × Nat)) :
    List String → Option (String × Nat)
  | [] => acc
  | n :: ns =>
    match acc with
    | none => bestOfAux f (some (n, f n)) ns
    | some (_, s) =>
      if s < f n then bestOfAux f (some (n, f n)) ns else bestOfAux f acc ns

/-- `process.extract(name, choices, limit=1, score_cutoff=cutoff)`: the best
match when its score reaches the cutoff, nothing otherwise. -/
def extractOne (f : String → String → Nat) (cutoff : Nat) (name : String)
    (choices : List String) : Option (String × Nat) :=
  match bestOfAux (fun c => f name c) none choices with
  | none => none
  | some (b, s) => if cutoff ≤ s then some (b, s) else none

/-- The fuzzy company-name filter loop of `main.py` (lines 106–117).  Each
row's company name is rendered with `str(...)` and lower-cased; an empty
string is skipped (kept).  A flagged row is dropped from the accepted set;
the second component collects, per flagged row, the row itself (appended to
`potential_duplicates_to_review`, which becomes the per-file review CSV)
together with the matched known name and the score reported in the warning
log at flag time. -/
def fuzzyFilter (f : String → String → Nat) (cutoff : Nat)
    (known : List String) : List Rec → List Rec × List (Rec × String × Nat)
  | [] => ([], [])
  | r :: rs =>
    let rest := fuzzyFilter f cutoff known rs
    let nameL := pyLower (pyStrGet r.company_name)
    if nameL = "" then (r :: rest.1, rest.2)
    else
      match extractOne f cutoff nameL known with
      | some (b, s) => (rest.1, (r, b, s) :: rest.2)
      | none => (r :: rest.1, rest.2)

/-- The per-file dedup stage as `main` runs it: clean, exact phone filter
(unconditional), then the fuzzy filter when enabled.  Returns the accepted
batch and the flagged review entries. -/
def dedupeFile (cfg : Config) (names : List String)
    (phones : List (Option String)) (batch : List Rec) :
    List Rec × List (Rec × String × Nat) :=
  let cleaned := (clean_data batch).cleaned
  let afterPhone := phoneFilter phones cleaned
  if cfg.enable_fuzzy_matching then
    fuzzyFilter cfg.scorer cfg.company_name_threshold names afterPhone
  else (afterPhone, [])

/-- Observable audit-table operations emitted by the orchestrator. -/
inductive AuditOp
  | createRun (id : Nat) (status : String) (tag : Option String)
  | fileLoad (file : String) (ok : Bool)
  | finalizeRun (id : Nat) (status : String) (files : List String) (count : Nat)
  deriving Repr, DecidableEq

/-- The orchestrator's run-scoped state: the durable database, the in-memory
DedupIndex (`existing_names`, `existing_phones`), the accumulators
(`total_contacts_added`, `processed_files`, `pipeline_status`), a ghost list
of files whose load raised, and the audit-operation trace. -/
structure RunState where
  db : DB
  names : List String
  phones : List (Option String)
  total : Nat
  processedFiles : List String
  status : String
  failedFiles : List String
  trace : List AuditOp
  deriving Repr, DecidableEq

/-- One input file, given as its name, its post-`apply_transformations`
batch, the sorted original column list (`json_keys`), and the outcome the
database would give this file's row insertion. -/
structure InputFile where
  name : String
  batch : List Rec
  json_keys : List String
  insertOk : Bool
  deriving Repr, DecidableEq

/-- `existing_names.extend(cleaned_df["company_name"].str.lower()...)`: the
lower-cased company name of an accepted record (always present on accepted
records, the schema declares the column NOT NULL). -/
def lowerName (r : Rec) : String := pyLower (r.company_name.getD "")

/-- The body of `main`'s per-file loop.  A file whose extraction is empty is
skipped entirely (`if raw_df.empty: continue`).  In dry-run mode only the
accumulators move.  In live mode `load_to_db` runs; on success the
DedupIndex is extended with the accepted batch and the accumulators move, on
failure the status flips to `failed` and the loop continues with the next
file. -/
def processFile (cfg : Config) (dryRun : Bool) (st : RunState)
    (f : InputFile) : RunState :=
  if f.batch.isEmpty then st
  else
    let a := dedupeFile cfg st.names st.phones f.batch
    let accepted := a.1
    if dryRun then
      { st with
        total := st.total + accepted.length,
        processedFiles := st.processedFiles ++ [f.name] }
    else
      let l := load_to_db accepted st.db f.json_keys f.insertOk
      if l.2 then
        { st with
          db := l.1,
          names := st.names ++ accepted.map lowerName,
          phones := st.phones ++ accepted.map (fun r => r.phone_number),
          total := st.total + accepted.length,
          processedFiles := st.processedFiles ++ [f.name],
          trace := st.trace ++ [AuditOp.fileLoad f.name true] }
      else
        { st with
          db := l.1,
          status := "failed",
          failedFiles := st.failedFiles ++ [f.name],
          trace := st.trace ++ [AuditOp.fileLoad f.name false] }

/-- The DedupIndex seed: lower-cased names and phone numbers of every
persisted contact (`SELECT company_name, phone_number FROM contacts`). -/
def seedIndex (db : DB) : List String × List (Option String) :=
  (db.contacts.map fun c => lowerName c.row,
   db.contacts.map fun c => c.row.phone_number)

/-- The `INSERT INTO etl_runs (status, tag_used) VALUES ('running', :tag)
RETURNING id` at run start. -/
def createRunRow (tag : Option String) (db : DB) : Nat × DB :=
  (db.nextRunId,
   { db with
     runs := db.runs ++ [⟨db.nextRunId, "running", tag, [], 0, false⟩],
     nextRunId := db.nextRunId + 1 })

/-- The `UPDATE etl_runs SET status = ..., files_processed = ...,
contacts_added = ..., finished_at = ... WHERE id = :run_id` in the
`finally` block. -/
def finalizeRunRow (rid : Nat) (status : String) (files : List String)
    (count : Nat) (db : DB) : DB :=
  { db with runs := db.runs.map fun r =>
      if r.id = rid then
        { r with status := status, files_processed := files,
                 contacts_added := count, finished := true }
      else r }

/-- The run-start state of a live run: the `etl_runs` INSERT (when it
succeeds; its failure is caught and leaves `run_id = None`), then the
DedupIndex seeding `SELECT` (when it succeeds; its failure is caught and an
empty index used), with the accumulators `total_contacts_added = 0`,
`processed_files = []`, `pipeline_status = "completed"`. -/
def liveStart (cfg : Config) (createOk seedOk : Bool) (db0 : DB) : RunState :=
  let db1 := if createOk then (createRunRow cfg.tag db0).2 else db0
  ⟨db1,
   (if seedOk then seedIndex db1 else ([], [])).1,
   (if seedOk then seedIndex db1 else ([], [])).2,
   0, [], "completed", [],
   if createOk then [AuditOp.createRun db0.nextRunId "running" cfg.tag]
   else []⟩

/-- The run-start state of a dry run: no audit insert, no seeding — the
DedupIndex starts empty and the database is untouched. -/
def dryStart (db0 : DB) : RunState :=
  ⟨db0, [], [], 0, [], "completed", [], []⟩

/-- The files the main loop actually reaches: all of them, or the first `k`
when an unexpected exception escapes the loop after `k` files. -/
def toProcessList (abortAfter : Option Nat) (files : List InputFile) :
    List InputFile :=
  match abortAfter with
  | none => files
  | some k => files.take k

/-- The `finally` block: the `etl_runs` UPDATE runs only outside dry-run
mode and only for a truthy `run_id` (`None` and `0` are both falsy in
Python; in dry-run mode `run_id` is `None` because creation was skipped). -/
def finalizePhase (dryRun : Bool) (rid : Option Nat) (status : String)
    (st1 : RunState) : RunState :=
  match rid with
  | some i =>
    if dryRun = false ∧ i ≠ 0 then
      { st1 with
        db := finalizeRunRow i status st1.processedFiles st1.total st1.db,
        status := status,
        trace := st1.trace ++
          [AuditOp.finalizeRun i status st1.processedFiles st1.total] }
    else { st1 with status := status }
  | none => { st1 with status := status }

/-- The whole of `main` from `etl/scripts/main.py`, for one invocation:
run-record creation and index seeding (live mode), the per-file loop —
truncated when an unexpected exception escapes it, which also forces the
status to `failed` — and the guaranteed finalization. -/
def runPipeline (cfg : Config) (dryRun seedOk createOk : Bool)
    (abortAfter : Option Nat) (db0 : DB) (files : List InputFile) :
    RunState :=
  let rid : Option Nat :=
    if dryRun then none else if createOk then some db0.nextRunId else none
  let st0 := if dryRun then dryStart db0 else liveStart cfg createOk seedOk db0
  let st1 := (toProcessList abortAfter files).foldl (processFile cfg dryRun) st0
  let status := if abortAfter.isSome then "failed" else st1.status
  finalizePhase dryRun rid status st1

/-! ## Concrete sample data for witnesses and counterexamples -/

set_option maxRecDepth 100000

/-- Build a row with the three fields the dedup pipeline inspects. -/
def mkRow (n p u : Option String) : Rec :=
  { Rec.nullRow with company_name := n, phone_number := p, url := u }

/-- An empty database. -/
def emptyDB : DB := ⟨[], [], 0, [], 1⟩

/-- A database holding one profile for the key set `\x7ba, b\x7d` with
`contact_count = 5`. -/
def dbP : DB := ⟨[], [⟨7, profileHash ["a", "b"], ["a", "b"], 5⟩], 8, [], 1⟩

/-- A two-record accepted batch. -/
def batch2 : List Rec :=
  [mkRow (some "Acme") (some "111") none, mkRow (some "Beta") (some "222") none]

/-- A one-record accepted batch. -/
def batch1 : List Rec := [mkRow (some "Acme") (some "111") none]

/-! ## Structural lemmas about profiles and loading -/

lemma get_or_create_contacts (keys : List String) (db : DB) :
    (get_or_create_profile_id keys db).2.contacts = db.contacts := by
  unfold get_or_create_profile_id
  by_cases h : keys.isEmpty <;> simp only [h] <;>
    cases db.profiles.find? (fun p => p.profile_hash == profileHash keys) <;> simp

lemma load_to_db_profiles_eq (batch : List Rec) (db : DB) (keys : List String)
    (ok : Bool) (hb : ¬ batch.isEmpty) :
    (load_to_db batch db keys ok).1.profiles
      = (get_or_create_profile_id keys db).2.profiles := by
  unfold load_to_db
  simp only [hb, if_false, Bool.false_eq_true]
  cases ok <;> simp

lemma charListLe_total : ∀ as bs : List Char,
    charListLe as bs = true ∨ charListLe bs as = true
  | [], bs => by left; rfl
  | _ :: _, [] => by right; rfl
  | a :: as, b :: bs => by
    rcases Nat.lt_trichotomy a.toNat b.toNat with h | h | h
    · left
      simp [charListLe, h]
    · have h1 : ¬ a.toNat < b.toNat := by omega
      have h2 : ¬ b.toNat < a.toNat := by omega
      rcases charListLe_total as bs with ih | ih
      · left
        simp [charListLe, h1, h2, ih]
      · right
        simp [charListLe, h1, h2, ih]
    · right
      simp [charListLe, h]

lemma char_eq_of_toNat_eq {a b : Char} (h : a.toNat = b.toNat) : a = b := by
  have ha := Char.ofNat_toNat a
  rw [h, Char.ofNat_toNat] at ha
  exact ha.symm

lemma charListLe_antisymm : ∀ as bs : List Char,
    charListLe as bs = true → charListLe bs as = true → as = bs
  | [], [], _, _ => rfl
  | [], _ :: _, _, h => by simp [charListLe] at h
  | _ :: _, [], h, _ => by simp [charListLe] at h
  | a :: as, b :: bs, h1, h2 => by
    rcases Nat.lt_trichotomy a.toNat b.toNat with h | h | h
    · have : ¬ b.toNat < a.toNat := by omega
      simp [charListLe, this, h] at h2
    · have hn1 : ¬ a.toNat < b.toNat := by omega
      have hn2 : ¬ b.toNat < a.toNat := by omega
      simp only [charListLe, if_neg hn1, if_neg hn2] at h1 h2
      rw [char_eq_of_toNat_eq h, charListLe_antisymm as bs h1 h2]
    · have : ¬ a.toNat < b.toNat := by omega
      simp [charListLe, this, h] at h1

lemma charListLe_trans : ∀ as bs cs : List Char,
    charListLe as bs = true → charListLe bs cs = true →
      charListLe as cs = true
  | [], _, _, _, _ => rfl
  | _ :: _, [], _, h, _ => by simp [charListLe] at h
  | _ :: _, _ :: _, [], _, h => by simp [charListLe] at h
  | a :: as, b :: bs, c :: cs, h1, h2 => by
    simp only [charListLe] at h1 h2 ⊢
    split at h1 <;> rename_i hab
    · split at h2 <;> rename_i hbc
      · rw [if_pos (by omega)]
      · split at h2 <;> rename_i hcb
        · simp at h2
        · rw [if_pos (by omega)]
    · split at h1 <;> rename_i hba
      · simp at h1
      · split at h2 <;> rename_i hbc
        · rw [if_pos (by omega)]
        · split at h2 <;> rename_i hcb
          · simp at h2
          · rw [if_neg (by omega), if_neg (by omega)]
            exact charListLe_trans as bs cs h1 h2

instance : IsTotal String keyLe :=
  ⟨fun a b => by
    unfold keyLe
    rcases charListLe_total a.toList b.toList with h | h <;> [left; right] <;>
      exact h⟩

instance : IsTrans String keyLe :=
  ⟨fun a b c h1 h2 => charListLe_trans a.toList b.toList c.toList h1 h2⟩

instance : IsAntisymm String keyLe :=
  ⟨fun a b h1 h2 => by
    have h := charListLe_antisymm a.toList b.toList h1 h2
    cases a
    cases b
    simp only [String.toList] at h
    exact congrArg String.mk h⟩

lemma sortedKeys_perm_eq {l₁ l₂ : List String} (h : l₁.Perm l₂) :
    sortedKeys l₁ = sortedKeys l₂ := by
  apply List.eq_of_perm_of_sorted (r := keyLe)
    (((List.perm_insertionSort _ l₁).trans h).trans
      (List.perm_insertionSort _ l₂).symm)
  · exact List.sorted_insertionSort _ l₁
  · exact List.sorted_insertionSort _ l₂

lemma profileHash_perm_eq {l₁ l₂ : List String} (h : l₁.Perm l₂) :
    profileHash l₁ = profileHash l₂ := by
  unfold profileHash
  rw [sortedKeys_perm_eq h]

lemma get_or_create_perm_eq {l₁ l₂ : List String} (h : l₁.Perm l₂) (db : DB) :
    get_or_create_profile_id l₁ db = get_or_create_profile_id l₂ db := by
  have he : l₁.isEmpty = l₂.isEmpty := by
    have := h.length_eq
    cases l₁ <;> cases l₂ <;> simp_all
  unfold get_or_create_profile_id
  rw [he, profileHash_perm_eq h, sortedKeys_perm_eq h]

/-- Summing `contact_count` after the per-call UPDATE bump. -/
lemma sum_map_bump (l : List Profile) (i : Nat) :
    ((l.map fun q =>
        if q.id = i then { q with contact_count := q.contact_count + 1 }
        else q).map fun p => p.contact_count).sum
      = ((l.map fun p => p.contact_count).sum)
          + (l.filter (fun q => q.id == i)).length := by
  induction l with
  | nil => simp
  | cons a l ih =>
    by_cases h : a.id = i <;>
      simp [List.filter_cons, h, ih, -List.map_map, -Function.comp_apply] <;> omega

lemma filter_id_singleton {l : List Profile} {p : Profile}
    (hn : (l.map fun q => q.id).Nodup) (hm : p ∈ l) :
    (l.filter (fun q => q.id == p.id)).length = 1 := by
  induction l with
  | nil => cases hm
  | cons a l ih =>
    simp only [List.map_cons, List.nodup_cons, List.mem_map] at hn
    rcases List.mem_cons.mp hm with rfl | hm'
    · have hnil : l.filter (fun q => q.id == p.id) = [] := by
        refine List.filter_eq_nil_iff.mpr fun q hq => ?_
        simp only [beq_iff_eq]
        exact fun hqe => hn.1 ⟨q, hq, hqe⟩
      simp [List.filter_cons, hnil]
    · have ha : (a.id == p.id) = false := by
        simp only [beq_eq_false_iff_ne, ne_eq]
        exact fun hae => hn.1 ⟨p, hm', hae.symm⟩
      simp [List.filter_cons, ha, ih hn.2 hm']

/-- The aggregate `contact_count` over all profiles grows by exactly one per
`get_or_create_profile_id` call with a nonempty key list. -/
lemma get_or_create_sum (keys : List String) (db : DB)
    (hk : ¬ keys.isEmpty) (hn : (db.profiles.map fun q => q.id).Nodup) :
    ((get_or_create_profile_id keys db).2.profiles.map
        fun p => p.contact_count).sum
      = (db.profiles.map fun p => p.contact_count).sum + 1 := by
  unfold get_or_create_profile_id
  simp only [hk, if_false, Bool.false_eq_true]
  cases hf : db.profiles.find? (fun p => p.profile_hash == profileHash keys) with
  | none => simp
  | some p =>
    have hm : p ∈ db.profiles := List.mem_of_find?_eq_some hf
    simp only [sum_map_bump, filter_id_singleton hn hm]

/-! ## Claim C1 -/

/-- C1 counterexample: persisting an accepted batch of 2 records under an
existing profile with `contact_count = 5` leaves the count at 6, not 5 + 2.
`get_or_create_profile_id` is called once per file batch and increments by
one, so the count does not track the number of persisted records. -/
theorem c1_counterexample_count_per_record :
    batch2.length = 2
    ∧ (dbP.profiles.map fun p => p.contact_count) = [5]
    ∧ ((load_to_db batch2 dbP ["b", "a"] true).1.profiles.map
        fun p => p.contact_count) = [6]
    ∧ (load_to_db batch2 dbP ["b", "a"] true).1.contacts.length = 2
    ∧ (6 : Nat) ≠ 5 + 2 := by
  refine ⟨by decide, by decide, by decide, by decide, by decide⟩

/-- C1 (amended): persisting a nonempty accepted batch under a profile
increments the aggregate `contact_count` over all profiles by exactly 1 per
file batch (not 1 per record), and a newly created profile starts with
`contact_count = 1` (the column default).  `hn` states that profile ids are
unique, as the serial primary key guarantees. -/
theorem c1_contact_count_once_per_batch (db : DB) (keys : List String)
    (batch : List Rec) (ok : Bool) (hb : ¬ batch.isEmpty)
    (hk : ¬ keys.isEmpty) (hn : (db.profiles.map fun q => q.id).Nodup) :
    (((load_to_db batch db keys ok).1.profiles.map
        fun p => p.contact_count).sum
      = (db.profiles.map fun p => p.contact_count).sum + 1)
    ∧ (db.profiles.find? (fun p => p.profile_hash == profileHash keys) = none →
        (⟨db.nextProfileId, profileHash keys, sortedKeys keys, 1⟩ : Profile)
          ∈ (load_to_db batch db keys ok).1.profiles) := by
  constructor
  · rw [load_to_db_profiles_eq batch db keys ok hb]
    exact get_or_create_sum keys db hk hn
  · intro hf
    rw [load_to_db_profiles_eq batch db keys ok hb]
    unfold get_or_create_profile_id
    simp [hk, hf]

/-- Witness for `c1_contact_count_once_per_batch` at a concrete database. -/
theorem c1_contact_count_once_per_batch_witness :
    ((load_to_db batch2 dbP ["b", "a"] true).1.profiles.map
        fun p => p.contact_count).sum
      = (dbP.profiles.map fun p => p.contact_count).sum + 1 :=
  (c1_contact_count_once_per_batch dbP ["b", "a"] batch2 true (by decide)
    (by decide) (by decide)).1

/-! ## Claim C2 -/

/-- C2 counterexample: a failed row insertion for a nonempty batch leaves
the durable state CHANGED — the profile count update was committed in its
own earlier transaction — refuting the claim that the profile count update
does not persist when the insertion fails. -/
theorem c2_counterexample_profile_update_persists :
    (load_to_db batch1 dbP ["b", "a"] false).2 = false
    ∧ (load_to_db batch1 dbP ["b", "a"] false).1.contacts = dbP.contacts
    ∧ ((load_to_db batch1 dbP ["b", "a"] false).1.profiles.map
        fun p => p.contact_count) = [6]
    ∧ (load_to_db batch1 dbP ["b", "a"] false).1 ≠ dbP := by
  refine ⟨by decide, by decide, by decide, by decide⟩

/-- C2 (amended): per-file persistence is NOT one atomic unit.  The profile
lookup/count update commits separately before the row insertion; on a failed
insertion the durable state is exactly the state after the committed profile
update — no contact row is added, but the count update persists. -/
theorem c2_failed_insert_keeps_profile_update (db : DB) (keys : List String)
    (batch : List Rec) (hb : ¬ batch.isEmpty) :
    load_to_db batch db keys false
        = ((get_or_create_profile_id keys db).2, false)
    ∧ (load_to_db batch db keys false).1.contacts = db.contacts := by
  constructor
  · unfold load_to_db
    simp [hb]
  · unfold load_to_db
    simp [hb, get_or_create_contacts]

/-- Witness for `c2_failed_insert_keeps_profile_update`. -/
theorem c2_failed_insert_keeps_profile_update_witness :
    load_to_db batch1 dbP ["b", "a"] false
        = ((get_or_create_profile_id ["b", "a"] dbP).2, false)
    ∧ (load_to_db batch1 dbP ["b", "a"] false).1.contacts = dbP.contacts :=
  c2_failed_insert_keeps_profile_update dbP ["b", "a"] batch1 (by decide)

/-! ## Claim C5 -/

/-- C5 counterexample: two key lists with the same SET of names but
different multiplicities hash differently — the digest input is the sorted
list, not the deduplicated set — and create distinct profiles. -/
theorem c5_counterexample_duplicates_change_hash :
    (["a", "a"] : List String).dedup = (["a"] : List String).dedup
    ∧ profileHash ["a", "a"] ≠ profileHash ["a"]
    ∧ get_or_create_profile_id ["a", "a"] emptyDB
        ≠ get_or_create_profile_id ["a"] emptyDB := by
  refine ⟨by decide, by decide, by decide⟩

/-- C5 (amended): profile identity is a function of the sorted key LIST
(multiset): permutations of the key list produce the same hash and the same
profile operation, but duplicate keys are preserved by the digest input, so
lists with equal sets and different multiplicities may differ.  The operation
returns a null identifier exactly when the key list is empty. -/
theorem c5_profile_identity_sorted_multiset :
    (∀ (l₁ l₂ : List String) (db : DB), l₁.Perm l₂ →
        get_or_create_profile_id l₁ db = get_or_create_profile_id l₂ db)
    ∧ (∀ (keys : List String) (db : DB),
        (get_or_create_profile_id keys db).1 = none ↔ keys = []) := by
  constructor
  · intro l₁ l₂ db h
    exact get_or_create_perm_eq h db
  · intro keys db
    by_cases hk : keys = []
    · subst hk
      simp [get_or_create_profile_id]
    · have he : keys.isEmpty = false := by
        simpa [List.isEmpty_iff] using hk
      unfold get_or_create_profile_id
      simp only [he, Bool.false_eq_true, if_false]
      cases db.profiles.find? (fun p => p.profile_hash == profileHash keys) <;>
        simp [hk]

/-- Witness for `c5_profile_identity_sorted_multiset` at a concrete
permutation. -/
theorem c5_profile_identity_sorted_multiset_witness :
    get_or_create_profile_id ["b", "a"] emptyDB
      = get_or_create_profile_id ["a", "b"] emptyDB :=
  c5_profile_identity_sorted_multiset.1 ["b", "a"] ["a", "b"] emptyDB
    (List.Perm.swap "a" "b" [])

/-! ## Lemmas about the intra-batch dedup -/

lemma dedupPhones_kept_sublist (seen : List (Option String)) :
    ∀ l : List Rec, (dedupPhones seen l).1.Sublist l
  | [] => List.Sublist.refl []
  | r :: rs => by
    unfold dedupPhones
    by_cases h : r.phone_number ∈ seen
    · simp only [if_pos h]
      exact (dedupPhones_kept_sublist seen rs).cons r
    · simp only [if_neg h]
      exact (dedupPhones_kept_sublist (r.phone_number :: seen) rs).cons₂ r

lemma dedupPhones_perm (seen : List (Option String)) :
    ∀ l : List Rec, ((dedupPhones seen l).1 ++ (dedupPhones seen l).2).Perm l
  | [] => List.Perm.refl []
  | r :: rs => by
    unfold dedupPhones
    by_cases h : r.phone_number ∈ seen
    · simp only [if_pos h]
      exact List.perm_middle.trans ((dedupPhones_perm seen rs).cons r)
    · simp only [if_neg h]
      exact (dedupPhones_perm (r.phone_number :: seen) rs).cons r

lemma dedupPhones_phones_nodup (seen : List (Option String)) (hs : seen.Nodup) :
    ∀ l : List Rec,
      ((dedupPhones seen l).1.map (fun r => r.phone_number) ++ seen).Nodup
  | [] => by simpa using hs
  | r :: rs => by
    unfold dedupPhones
    by_cases h : r.phone_number ∈ seen
    · simp only [if_pos h]
      exact dedupPhones_phones_nodup seen hs rs
    · simp only [if_neg h]
      have ih := dedupPhones_phones_nodup (r.phone_number :: seen)
        (List.nodup_cons.mpr ⟨h, hs⟩) rs
      refine List.Perm.nodup ?_ ih
      exact List.perm_middle

lemma dedupPhones_first_kept (p : Option String) :
    ∀ (l : List Rec) (seen : List (Option String)) (x : Rec), p ∉ seen →
      l.find? (fun r => decide (r.phone_number = p)) = some x →
      x ∈ (dedupPhones seen l).1
  | [], _, _, _, hf => by simp at hf
  | r :: rs, seen, x, hp, hf => by
    unfold dedupPhones
    by_cases hr : r.phone_number = p
    · have hx : r = x := by
        rw [List.find?_cons_of_pos _ (by simpa using hr)] at hf
        exact Option.some_inj.mp hf
      subst hx
      rw [hr]
      simp only [if_neg hp]
      exact List.mem_cons_self _ _
    · have hf' : rs.find? (fun r => decide (r.phone_number = p)) = some x := by
        rwa [List.find?_cons_of_neg _ (by simpa using hr)] at hf
      by_cases h : r.phone_number ∈ seen
      · simp only [if_pos h]
        exact dedupPhones_first_kept p rs seen x hp hf'
      · simp only [if_neg h]
        refine List.mem_cons_of_mem _
          (dedupPhones_first_kept p rs (r.phone_number :: seen) x ?_ hf')
        intro hmem
        rcases List.mem_cons.mp hmem with he | he
        · exact hr he.symm
        · exact hp he

/-! ## Claim C3 -/

/-- Row with a null phone used in dedup counterexamples. -/
def rA : Rec := mkRow (some "A") none none

/-- Second row with a null phone. -/
def rB : Rec := mkRow (some "B") none none

/-- C3 counterexample: two records with NULL phone numbers in one batch —
the second is removed by the intra-batch dedup and written to the
dropped-duplicates sink, refuting the claim that records with a null
`phone_number` are never removed by this step. -/
theorem c3_counterexample_null_phones_deduped :
    rA.phone_number = none
    ∧ rB.phone_number = none
    ∧ (clean_data [rA, rB]).cleaned = [rA]
    ∧ (clean_data [rA, rB]).dropped = [rB] := by
  refine ⟨rfl, rfl, by decide, by decide⟩

/-- C3 (amended): the intra-batch dedup treats the phone value — null
included — as the key: within one file it keeps exactly the first occurrence
per phone value (stable by original row order, a sublist of the cleaned
batch, with pairwise distinct phone values), and the removed records are
exactly the remainder, all written to the dropped-duplicates sink.  Records
with a null phone_number are deduplicated like any other value: only the
first null-phone record survives. -/
theorem c3_intra_batch_dedup_first_occurrence (batch : List Rec) :
    ((clean_data batch).cleaned.Sublist (preDedup batch))
    ∧ (((clean_data batch).cleaned ++ (clean_data batch).dropped).Perm
        (preDedup batch))
    ∧ (((clean_data batch).cleaned.map fun r => r.phone_number).Nodup)
    ∧ (∀ (p : Option String) (x : Rec),
        (preDedup batch).find? (fun r => decide (r.phone_number = p))
            = some x →
          x ∈ (clean_data batch).cleaned) := by
  refine ⟨dedupPhones_kept_sublist [] (preDedup batch),
    dedupPhones_perm [] (preDedup batch), ?_, ?_⟩
  · have h := dedupPhones_phones_nodup [] List.nodup_nil (preDedup batch)
    simpa using h
  · intro p x hf
    exact dedupPhones_first_kept p (preDedup batch) [] x (by simp) hf

/-- Witness for `c3_intra_batch_dedup_first_occurrence`: the first
null-phone record of a concrete two-record batch is kept. -/
theorem c3_intra_batch_dedup_first_occurrence_witness :
    rA ∈ (clean_data [rA, rB]).cleaned :=
  (c3_intra_batch_dedup_first_occurrence [rA, rB]).2.2.2 none rA (by decide)

/-! ## Lemmas about the exact phone filter and the accepted set -/

lemma phoneFilter_mem (known : List (Option String)) (batch : List Rec)
    (r : Rec) :
    r ∈ phoneFilter known batch ↔ r ∈ batch ∧ r.phone_number ∉ known := by
  simp [phoneFilter, List.mem_filter]

lemma fuzzyFilter_accepted_sublist (f : String → String → Nat) (cutoff : Nat)
    (known : List String) :
    ∀ l : List Rec, (fuzzyFilter f cutoff known l).1.Sublist l
  | [] => List.Sublist.refl []
  | r :: rs => by
    unfold fuzzyFilter
    by_cases h : pyLower (pyStrGet r.company_name) = ""
    · simp only [if_pos h]
      exact (fuzzyFilter_accepted_sublist f cutoff known rs).cons₂ r
    · simp only [if_neg h]
      cases extractOne f cutoff (pyLower (pyStrGet r.company_name)) known with
      | some b =>
        exact (fuzzyFilter_accepted_sublist f cutoff known rs).cons r
      | none =>
        exact (fuzzyFilter_accepted_sublist f cutoff known rs).cons₂ r

/-! ## Claim C4 -/

/-- C4 counterexample: when the known-phones list contains a null entry (a
persisted or previously accepted contact without a phone), a record with a
null `phone_number` is DROPPED by the exact phone filter — pandas `isin`
matches missing against missing — refuting the claim that every record with
a null phone passes this filter. -/
theorem c4_counterexample_null_phone_dropped :
    (mkRow (some "Acme") none none).phone_number = none
    ∧ phoneFilter [none] [mkRow (some "Acme") none none] = [] := by
  refine ⟨rfl, by decide⟩

/-- C4 (amended): the exact phone filter drops exactly those records whose
`phone_number` value — null included — occurs in the known-phones list: a
record with phone P is excluded whenever P is in the list, whatever its
other fields, and a record with a null phone passes exactly when the list
contains no null entry.  The filter runs whether or not fuzzy matching is
enabled: the accepted set is always a sublist of the phone-filter output,
and equals it when fuzzy matching is disabled. -/
theorem c4_exact_phone_filter_membership :
    (∀ (known : List (Option String)) (batch : List Rec) (r : Rec),
        r ∈ phoneFilter known batch ↔ r ∈ batch ∧ r.phone_number ∉ known)
    ∧ (∀ (known : List (Option String)) (batch : List Rec) (r : Rec),
        r ∈ batch → r.phone_number = none →
          (r ∈ phoneFilter known batch ↔ none ∉ known))
    ∧ (∀ (cfg : Config) (names : List String)
        (phones : List (Option String)) (batch : List Rec),
        (dedupeFile cfg names phones batch).1.Sublist
            (phoneFilter phones (clean_data batch).cleaned)
          ∧ (cfg.enable_fuzzy_matching = false →
              (dedupeFile cfg names phones batch).1
                = phoneFilter phones (clean_data batch).cleaned)) := by
  refine ⟨phoneFilter_mem, ?_, ?_⟩
  · intro known batch r hb hp
    rw [phoneFilter_mem, hp]
    simp [hb]
  · intro cfg names phones batch
    unfold dedupeFile
    by_cases h : cfg.enable_fuzzy_matching
    · simp only [if_pos h]
      exact ⟨fuzzyFilter_accepted_sublist _ _ _ _, fun hf => by
        rw [hf] at h
        cases h⟩
    · simp only [if_neg h]
      exact ⟨List.Sublist.refl _, fun _ => trivial⟩

/-- Witness for `c4_exact_phone_filter_membership`: a record whose phone is
in the known list is excluded, and a null-phone record passes an all-non-null
known list. -/
theorem c4_exact_phone_filter_membership_witness :
    (¬ (mkRow (some "Acme") (some "123") none
        ∈ phoneFilter [some "123"] [mkRow (some "Acme") (some "123") none]))
    ∧ (mkRow (some "Acme") none none
        ∈ phoneFilter [some "123"] [mkRow (some "Acme") none none]) := by
  constructor
  · intro hmem
    have h := (c4_exact_phone_filter_membership.1 [some "123"]
      [mkRow (some "Acme") (some "123") none]
      (mkRow (some "Acme") (some "123") none)).mp hmem
    exact h.2 (by decide)
  · exact (c4_exact_phone_filter_membership.2.1 [some "123"]
      [mkRow (some "Acme") none none] (mkRow (some "Acme") none none)
      (by decide) rfl).mpr (by decide)

/-! ## Claim C7 -/

/-- A record with a blank (non-null) company name and a derivable URL. -/
def rBlank : Rec := mkRow (some "") none (some "http://www.example.com/page")

/-- C7 counterexample: a record whose `company_name` is blank but NOT null
is selected by the backfill mask, yet `fillna` only fills genuinely null
entries, so the derived name `Example` is never assigned: the record keeps
its blank name and is quarantined instead of accepted. -/
theorem c7_counterexample_blank_name_not_backfilled :
    blankName rBlank.company_name = true
    ∧ derive_name_from_url rBlank.url = some "Example"
    ∧ backfillName rBlank = rBlank
    ∧ (clean_data [rBlank]).cleaned = []
    ∧ (clean_data [rBlank]).invalid = [rBlank] := by
  refine ⟨rfl, by decide, rfl, by decide, by decide⟩

/-- C7 (amended): the cleaner derives `company_name` from `url` only for
records whose name is genuinely null (blank non-null names are masked but
left unchanged by `fillna`); the derivation parses the host, removes EVERY
occurrence of `www.` (not only a leading label), takes the first label
before the next dot, and capitalizes it, so `http://www.example.com/page`
yields `Example` while `http://xwww.foo.com` yields `Xfoo`; a URL that
fails to parse yields null rather than an error. -/
theorem c7_name_backfill_null_only :
    (∀ r : Rec, r.company_name = none →
        backfillName r = { r with company_name := derive_name_from_url r.url })
    ∧ (∀ (r : Rec) (s : String), r.company_name = some s → backfillName r = r)
    ∧ derive_name_from_url (some "http://www.example.com/page")
        = some "Example"
    ∧ derive_name_from_url (some "http://xwww.foo.com") = some "Xfoo"
    ∧ derive_name_from_url (some "http:///x") = none
    ∧ derive_name_from_url none = none := by
  refine ⟨?_, ?_, by decide, by decide, by decide, rfl⟩
  · intro r h
    simp [backfillName, h]
  · intro r s h
    simp [backfillName, h]

/-- Witness for `c7_name_backfill_null_only`: a null name is backfilled from
the URL, a present name is left alone. -/
theorem c7_name_backfill_null_only_witness :
    backfillName (mkRow none none (some "http://www.example.com/page"))
      = { mkRow none none (some "http://www.example.com/page") with
          company_name :=
            derive_name_from_url (some "http://www.example.com/page") }
    ∧ backfillName rA = rA :=
  ⟨c7_name_backfill_null_only.1 _ rfl, c7_name_backfill_null_only.2.1 rA "A" rfl⟩

/-! ## Lemmas about the fuzzy matcher -/

lemma bestOfAux_none_iff (f : String → Nat) :
    ∀ (ns : List String) (acc : Option (String × Nat)),
      bestOfAux f acc ns = none ↔ acc = none ∧ ns = []
  | [], acc => by cases acc <;> simp [bestOfAux]
  | n :: ns, acc => by
    cases acc with
    | none =>
      simp only [bestOfAux, bestOfAux_none_iff f ns]
      simp
    | some p =>
      obtain ⟨b0, s0⟩ := p
      simp only [bestOfAux]
      by_cases h : s0 < f n <;>
        simp [h, bestOfAux_none_iff f ns]

lemma bestOfAux_spec (f : String → Nat) :
    ∀ (ns : List String) (acc : Option (String × Nat)) (b : String) (s : Nat),
      bestOfAux f acc ns = some (b, s) →
        (∀ n ∈ ns, f n ≤ s)
        ∧ (acc = some (b, s) ∨ (b ∈ ns ∧ f b = s))
        ∧ (∀ b0 s0, acc = some (b0, s0) → s0 ≤ s)
  | [], acc, b, s, h => by
    have ha : acc = some (b, s) := h
    refine ⟨by simp, Or.inl ha, fun b0 s0 h0 => ?_⟩
    rw [h0] at ha
    have h12 : (b0, s0) = (b, s) := Option.some_inj.mp ha
    exact Nat.le_of_eq (congrArg Prod.snd h12)
  | n :: ns, acc, b, s, h => by
    cases acc with
    | none =>
      have ih := bestOfAux_spec f ns (some (n, f n)) b s h
      refine ⟨?_, ?_, by simp⟩
      · intro m hm
        rcases List.mem_cons.mp hm with rfl | hm2
        · exact ih.2.2 m (f m) rfl
        · exact ih.1 m hm2
      · rcases ih.2.1 with heq | hmem
        · have h12 : (n, f n) = (b, s) := Option.some_inj.mp heq
          have hbn : n = b := congrArg Prod.fst h12
          have hsn : f n = s := congrArg Prod.snd h12
          subst hbn
          exact Or.inr ⟨List.mem_cons_self _ _, hsn⟩
        · exact Or.inr ⟨List.mem_cons_of_mem _ hmem.1, hmem.2⟩
    | some p =>
      obtain ⟨b0, s0⟩ := p
      have hstep : bestOfAux f (some (b0, s0)) (n :: ns)
          = if s0 < f n then bestOfAux f (some (n, f n)) ns
            else bestOfAux f (some (b0, s0)) ns := rfl
      rw [hstep] at h
      by_cases hlt : s0 < f n
      · rw [if_pos hlt] at h
        have ih := bestOfAux_spec f ns (some (n, f n)) b s h
        have hfn : f n ≤ s := ih.2.2 n (f n) rfl
        refine ⟨?_, ?_, ?_⟩
        · intro m hm
          rcases List.mem_cons.mp hm with rfl | hm2
          · exact hfn
          · exact ih.1 m hm2
        · rcases ih.2.1 with heq | hmem
          · have h12 : (n, f n) = (b, s) := Option.some_inj.mp heq
            have hbn : n = b := congrArg Prod.fst h12
            have hsn : f n = s := congrArg Prod.snd h12
            subst hbn
            exact Or.inr ⟨List.mem_cons_self _ _, hsn⟩
          · exact Or.inr ⟨List.mem_cons_of_mem _ hmem.1, hmem.2⟩
        · intro b1 s1 ha
          have h12 : (b0, s0) = (b1, s1) := Option.some_inj.mp ha
          have hs01 : s0 = s1 := congrArg Prod.snd h12
          exact hs01 ▸ Nat.le_of_lt (Nat.lt_of_lt_of_le hlt hfn)
      · rw [if_neg hlt] at h
        have ih := bestOfAux_spec f ns (some (b0, s0)) b s h
        have hs0 : s0 ≤ s := ih.2.2 b0 s0 rfl
        refine ⟨?_, ?_, ?_⟩
        · intro m hm
          rcases List.mem_cons.mp hm with rfl | hm2
          · exact Nat.le_trans (Nat.le_of_not_lt hlt) hs0
          · exact ih.1 m hm2
        · rcases ih.2.1 with heq | hmem
          · exact Or.inl heq
          · exact Or.inr ⟨List.mem_cons_of_mem _ hmem.1, hmem.2⟩
        · intro b1 s1 ha
          have h12 : (b0, s0) = (b1, s1) := Option.some_inj.mp ha
          have hs01 : s0 = s1 := congrArg Prod.snd h12
          omega

/-- Reduction of `extractOne` once the best match is known. -/
lemma extractOne_of_best (f : String → String → Nat) (cutoff : Nat)
    (name : String) (choices : List String) (b : String) (s : Nat)
    (hb : bestOfAux (fun c => f name c) none choices = some (b, s)) :
    extractOne f cutoff name choices
      = if cutoff ≤ s then some (b, s) else none := by
  unfold extractOne
  rw [hb]

/-- Reduction of `extractOne` when there are no choices. -/
lemma extractOne_of_best_none (f : String → String → Nat) (cutoff : Nat)
    (name : String) (choices : List String)
    (hb : bestOfAux (fun c => f name c) none choices = none) :
    extractOne f cutoff name choices = none := by
  unfold extractOne
  rw [hb]

lemma extractOne_some (f : String → String → Nat) (cutoff : Nat)
    (name : String) (choices : List String) (b : String) (s : Nat)
    (h : extractOne f cutoff name choices = some (b, s)) :
    b ∈ choices ∧ f name b = s ∧ cutoff ≤ s
      ∧ ∀ n ∈ choices, f name n ≤ s := by
  cases hb : bestOfAux (fun c => f name c) none choices with
  | none =>
    rw [extractOne_of_best_none f cutoff name choices hb] at h
    cases h
  | some p =>
    obtain ⟨b1, s1⟩ := p
    rw [extractOne_of_best f cutoff name choices b1 s1 hb] at h
    by_cases hc : cutoff ≤ s1
    · rw [if_pos hc] at h
      have h12 : (b1, s1) = (b, s) := Option.some_inj.mp h
      have hb1 : b1 = b := congrArg Prod.fst h12
      have hs1 : s1 = s := congrArg Prod.snd h12
      subst hb1
      subst hs1
      have spec := bestOfAux_spec (fun c => f name c) choices none b1 s1 hb
      rcases spec.2.1 with heq | hmem
      · cases heq
      · exact ⟨hmem.1, hmem.2, hc, spec.1⟩
    · rw [if_neg hc] at h
      cases h

lemma extractOne_none_iff (f : String → String → Nat) (cutoff : Nat)
    (name : String) (choices : List String) :
    extractOne f cutoff name choices = none ↔
      choices = [] ∨ ∀ n ∈ choices, f name n < cutoff := by
  cases hb : bestOfAux (fun c => f name c) none choices with
  | none =>
    have h0 := (bestOfAux_none_iff (fun c => f name c) choices none).mp hb
    rw [extractOne_of_best_none f cutoff name choices hb]
    simp [h0.2]
  | some p =>
    obtain ⟨b1, s1⟩ := p
    have hne : choices ≠ [] := by
      intro hc
      subst hc
      cases hb
    have spec := bestOfAux_spec (fun c => f name c) choices none b1 s1 hb
    rcases spec.2.1 with heq | hmem
    · cases heq
    · rw [extractOne_of_best f cutoff name choices b1 s1 hb]
      by_cases hc : cutoff ≤ s1
      · rw [if_pos hc]
        constructor
        · intro h0
          cases h0
        · rintro (h0 | hall)
          · exact absurd h0 hne
          · exact absurd (hmem.2 ▸ hall b1 hmem.1) (Nat.not_lt.mpr hc)
      · rw [if_neg hc]
        simp only [true_iff]
        refine Or.inr fun n hn => ?_
        exact Nat.lt_of_le_of_lt (spec.1 n hn) (Nat.lt_of_not_le hc)

lemma fuzzyFilter_perm (f : String → String → Nat) (cutoff : Nat)
    (known : List String) :
    ∀ batch : List Rec,
      ((fuzzyFilter f cutoff known batch).1
        ++ (fuzzyFilter f cutoff known batch).2.map fun e => e.1).Perm batch
  | [] => List.Perm.refl []
  | r :: rs => by
    unfold fuzzyFilter
    by_cases h : pyLower (pyStrGet r.company_name) = ""
    · simp only [if_pos h]
      exact (fuzzyFilter_perm f cutoff known rs).cons r
    · simp only [if_neg h]
      cases hx : extractOne f cutoff (pyLower (pyStrGet r.company_name)) known with
      | some p =>
        obtain ⟨b, s⟩ := p
        simp only [List.map_cons]
        exact List.perm_middle.trans ((fuzzyFilter_perm f cutoff known rs).cons r)
      | none =>
        exact (fuzzyFilter_perm f cutoff known rs).cons r

lemma fuzzyFilter_review_spec (f : String → String → Nat) (cutoff : Nat)
    (known : List String) :
    ∀ (batch : List Rec) (e : Rec × String × Nat),
      e ∈ (fuzzyFilter f cutoff known batch).2 →
        e.2.1 ∈ known
        ∧ f (pyLower (pyStrGet e.1.company_name)) e.2.1 = e.2.2
        ∧ cutoff ≤ e.2.2
        ∧ ∀ n ∈ known, f (pyLower (pyStrGet e.1.company_name)) n ≤ e.2.2
  | [], e, he => by simp [fuzzyFilter] at he
  | r :: rs, e, he => by
    unfold fuzzyFilter at he
    by_cases h : pyLower (pyStrGet r.company_name) = ""
    · simp only [if_pos h] at he
      exact fuzzyFilter_review_spec f cutoff known rs e he
    · simp only [if_neg h] at he
      cases hx : extractOne f cutoff (pyLower (pyStrGet r.company_name)) known with
      | some p =>
        obtain ⟨b, s⟩ := p
        rw [hx] at he
        rcases List.mem_cons.mp he with rfl | he'
        · exact extractOne_some f cutoff _ known b s hx
        · exact fuzzyFilter_review_spec f cutoff known rs e he'
      | none =>
        rw [hx] at he
        exact fuzzyFilter_review_spec f cutoff known rs e he

lemma fuzzyFilter_not_accepted (f : String → String → Nat) (cutoff : Nat)
    (known : List String) :
    ∀ (batch : List Rec) (r : Rec),
      pyLower (pyStrGet r.company_name) ≠ "" →
      (extractOne f cutoff (pyLower (pyStrGet r.company_name)) known).isSome →
      r ∉ (fuzzyFilter f cutoff known batch).1
  | [], r, _, _ => by simp [fuzzyFilter]
  | x :: rs, r, hne, hsome => by
    unfold fuzzyFilter
    by_cases h : pyLower (pyStrGet x.company_name) = ""
    · simp only [if_pos h]
      intro hmem
      rcases List.mem_cons.mp hmem with rfl | hmem'
      · exact hne h
      · exact fuzzyFilter_not_accepted f cutoff known rs r hne hsome hmem'
    · simp only [if_neg h]
      cases hx : extractOne f cutoff (pyLower (pyStrGet x.company_name)) known with
      | some p =>
        obtain ⟨b, s⟩ := p
        exact fuzzyFilter_not_accepted f cutoff known rs r hne hsome
      | none =>
        intro hmem
        rcases List.mem_cons.mp hmem with rfl | hmem'
        · rw [hx] at hsome
          cases hsome
        · exact fuzzyFilter_not_accepted f cutoff known rs r hne hsome hmem'

lemma fuzzyFilter_flagged_mem (f : String → String → Nat) (cutoff : Nat)
    (known : List String) :
    ∀ (batch : List Rec) (r : Rec) (b : String) (s : Nat), r ∈ batch →
      pyLower (pyStrGet r.company_name) ≠ "" →
      extractOne f cutoff (pyLower (pyStrGet r.company_name)) known
          = some (b, s) →
      (r, b, s) ∈ (fuzzyFilter f cutoff known batch).2
  | [], _, _, _, hm, _, _ => by cases hm
  | x :: rs, r, b, s, hm, hne, hx => by
    unfold fuzzyFilter
    by_cases h : pyLower (pyStrGet x.company_name) = ""
    · simp only [if_pos h]
      rcases List.mem_cons.mp hm with rfl | hm'
      · exact absurd h hne
      · exact fuzzyFilter_flagged_mem f cutoff known rs r b s hm' hne hx
    · simp only [if_neg h]
      rcases List.mem_cons.mp hm with rfl | hm'
      · rw [hx]
        exact List.mem_cons_self _ _
      · cases hx2 : extractOne f cutoff (pyLower (pyStrGet x.company_name)) known with
        | some p =>
          obtain ⟨b2, s2⟩ := p
          exact List.mem_cons_of_mem _
            (fuzzyFilter_flagged_mem f cutoff known rs r b s hm' hne hx)
        | none =>
          exact fuzzyFilter_flagged_mem f cutoff known rs r b s hm' hne hx

lemma fuzzyFilter_kept_mem (f : String → String → Nat) (cutoff : Nat)
    (known : List String) :
    ∀ (batch : List Rec) (r : Rec), r ∈ batch →
      (pyLower (pyStrGet r.company_name) = ""
        ∨ extractOne f cutoff (pyLower (pyStrGet r.company_name)) known
            = none) →
      r ∈ (fuzzyFilter f cutoff known batch).1
  | [], _, hm, _ => by cases hm
  | x :: rs, r, hm, hc => by
    unfold fuzzyFilter
    by_cases h : pyLower (pyStrGet x.company_name) = ""
    · simp only [if_pos h]
      rcases List.mem_cons.mp hm with rfl | hm'
      · exact List.mem_cons_self _ _
      · exact List.mem_cons_of_mem _
          (fuzzyFilter_kept_mem f cutoff known rs r hm' hc)
    · simp only [if_neg h]
      rcases List.mem_cons.mp hm with rfl | hm'
      · rcases hc with hc | hc
        · exact absurd hc h
        · rw [hc]
          exact List.mem_cons_self _ _
      · cases hx : extractOne f cutoff (pyLower (pyStrGet x.company_name)) known with
        | some p =>
          obtain ⟨b, s⟩ := p
          exact fuzzyFilter_kept_mem f cutoff known rs r hm' hc
        | none =>
          exact List.mem_cons_of_mem _
            (fuzzyFilter_kept_mem f cutoff known rs r hm' hc)

/-! ## Claim C6 -/

/-- C6: the fuzzy name filter, for any similarity scorer.  The accepted set
and the flagged rows partition the post-phone-filter batch; each flagged
entry records a known name achieving the best score and that score, which
meets the threshold; a row whose best score against any known name reaches
the threshold is removed from the accepted set and appears in the review
list; a row all of whose scores are below the threshold stays accepted.
The flag/no-flag decision therefore depends only on whether the best score
meets the threshold, not on which known name achieved it. -/
theorem c6_fuzzy_filter_threshold (f : String → String → Nat) (cutoff : Nat)
    (known : List String) (batch : List Rec) :
    (((fuzzyFilter f cutoff known batch).1
        ++ (fuzzyFilter f cutoff known batch).2.map fun e => e.1).Perm batch)
    ∧ (∀ e ∈ (fuzzyFilter f cutoff known batch).2,
        e.2.1 ∈ known
        ∧ f (pyLower (pyStrGet e.1.company_name)) e.2.1 = e.2.2
        ∧ cutoff ≤ e.2.2
        ∧ ∀ n ∈ known, f (pyLower (pyStrGet e.1.company_name)) n ≤ e.2.2)
    ∧ (∀ r ∈ batch, pyLower (pyStrGet r.company_name) ≠ "" →
        ((∃ n ∈ known, cutoff ≤ f (pyLower (pyStrGet r.company_name)) n) →
            r ∉ (fuzzyFilter f cutoff known batch).1
            ∧ ∃ b s, (r, b, s) ∈ (fuzzyFilter f cutoff known batch).2)
        ∧ ((∀ n ∈ known, f (pyLower (pyStrGet r.company_name)) n < cutoff) →
            r ∈ (fuzzyFilter f cutoff known batch).1)) := by
  refine ⟨fuzzyFilter_perm f cutoff known batch,
    fun e he => fuzzyFilter_review_spec f cutoff known batch e he,
    fun r hr hne => ⟨?_, ?_⟩⟩
  · rintro ⟨n, hn, hcn⟩
    have hns : extractOne f cutoff (pyLower (pyStrGet r.company_name)) known
        ≠ none := by
      rw [Ne, extractOne_none_iff]
      rintro (h0 | hall)
      · rw [h0] at hn
        cases hn
      · exact Nat.not_lt.mpr hcn (hall n hn)
    cases hx : extractOne f cutoff (pyLower (pyStrGet r.company_name)) known with
    | none => exact absurd hx hns
    | some p =>
      obtain ⟨b, s⟩ := p
      refine ⟨fuzzyFilter_not_accepted f cutoff known batch r hne
        (by rw [hx]; rfl), b, s,
        fuzzyFilter_flagged_mem f cutoff known batch r b s hr hne hx⟩
  · intro hall
    refine fuzzyFilter_kept_mem f cutoff known batch r hr (Or.inr ?_)
    rw [extractOne_none_iff]
    exact Or.inr hall

/-- Witness for `c6_fuzzy_filter_threshold`: with an equality scorer and
threshold 90, a batch row matching a known name is flagged with that name
and score 100, and a row matching nothing stays accepted. -/
theorem c6_fuzzy_filter_threshold_witness :
    ((mkRow (some "Acme") (some "1") none)
        ∉ (fuzzyFilter (fun a b => if a = b then 100 else 0) 90 ["acme"]
            [mkRow (some "Acme") (some "1") none]).1)
    ∧ ((mkRow (some "Zeta") (some "2") none)
        ∈ (fuzzyFilter (fun a b => if a = b then 100 else 0) 90 ["acme"]
            [mkRow (some "Zeta") (some "2") none]).1) := by
  constructor
  · exact ((c6_fuzzy_filter_threshold (fun a b => if a = b then 100 else 0) 90
      ["acme"] [mkRow (some "Acme") (some "1") none]).2.2
      (mkRow (some "Acme") (some "1") none) (by decide) (by decide)).1
      ⟨"acme", by decide, by decide⟩ |>.1
  · exact ((c6_fuzzy_filter_threshold (fun a b => if a = b then 100 else 0) 90
      ["acme"] [mkRow (some "Zeta") (some "2") none]).2.2
      (mkRow (some "Zeta") (some "2") none) (by decide) (by decide)).2
      (by decide)

/-! ## Lemmas about the orchestrator -/

lemma processFile_dry (cfg : Config) (st : RunState) (f : InputFile) :
    processFile cfg true st f
      = { st with
          total := st.total
            + (if f.batch.isEmpty then 0
               else (dedupeFile cfg st.names st.phones f.batch).1.length),
          processedFiles := st.processedFiles
            ++ (if f.batch.isEmpty then [] else [f.name]) } := by
  by_cases h : f.batch.isEmpty <;> simp [processFile, h]

lemma foldl_dry_inv (cfg : Config) :
    ∀ (files : List InputFile) (st : RunState),
      (files.foldl (processFile cfg true) st).db = st.db
      ∧ (files.foldl (processFile cfg true) st).names = st.names
      ∧ (files.foldl (processFile cfg true) st).phones = st.phones
      ∧ (files.foldl (processFile cfg true) st).status = st.status
      ∧ (files.foldl (processFile cfg true) st).trace = st.trace
      ∧ (files.foldl (processFile cfg true) st).failedFiles = st.failedFiles
  | [], st => ⟨rfl, rfl, rfl, rfl, rfl, rfl⟩
  | f :: fs, st => by
    simp only [List.foldl_cons, processFile_dry cfg st f]
    exact foldl_dry_inv cfg fs _

lemma foldl_dry_total (cfg : Config) (names0 : List String)
    (phones0 : List (Option String)) :
    ∀ (files : List InputFile) (st : RunState),
      st.names = names0 → st.phones = phones0 →
      (files.foldl (processFile cfg true) st).total
        = st.total + (files.map fun f =>
            if f.batch.isEmpty then 0
            else (dedupeFile cfg names0 phones0 f.batch).1.length).sum
  | [], st, _, _ => by simp
  | f :: fs, st, h1, h2 => by
    simp only [List.foldl_cons, List.map_cons, List.sum_cons,
      processFile_dry cfg st f]
    rw [foldl_dry_total cfg names0 phones0 fs
      ({ st with
          total := st.total + (if f.batch.isEmpty then 0
            else (dedupeFile cfg st.names st.phones f.batch).1.length),
          processedFiles := st.processedFiles
            ++ (if f.batch.isEmpty then [] else [f.name]) }) h1 h2]
    simp only [h1, h2]
    omega

lemma processFile_live_shape (cfg : Config) (st : RunState) (f : InputFile) :
    ∃ (op0 : List AuditOp) (e0 : List String),
      (processFile cfg false st f).trace = st.trace ++ op0
      ∧ (∀ op ∈ op0, ∃ n ok, op = AuditOp.fileLoad n ok)
      ∧ (processFile cfg false st f).failedFiles = st.failedFiles ++ e0
      ∧ (processFile cfg false st f).status
          = (if e0.isEmpty then st.status else "failed") := by
  by_cases hb : f.batch.isEmpty
  · refine ⟨[], [], ?_, by simp, ?_, ?_⟩ <;> simp [processFile, hb]
  · simp only [processFile, hb, Bool.false_eq_true, if_false]
    split
    · exact ⟨[AuditOp.fileLoad f.name true], [], by simp, by simp, by simp,
        by simp⟩
    · refine ⟨[AuditOp.fileLoad f.name false], [f.name], by simp, ?_,
        by simp, by simp⟩
      intro op hop
      rcases List.mem_singleton.mp hop with rfl
      exact ⟨f.name, false, rfl⟩

lemma foldl_live_shape (cfg : Config) :
    ∀ (files : List InputFile) (st : RunState),
      ∃ (ops : List AuditOp) (extra : List String),
        (files.foldl (processFile cfg false) st).trace = st.trace ++ ops
        ∧ (∀ op ∈ ops, ∃ n ok, op = AuditOp.fileLoad n ok)
        ∧ (files.foldl (processFile cfg false) st).failedFiles
            = st.failedFiles ++ extra
        ∧ (files.foldl (processFile cfg false) st).status
            = (if extra.isEmpty then st.status else "failed")
  | [], st => ⟨[], [], by simp, by simp, by simp, by simp⟩
  | f :: fs, st => by
    simp only [List.foldl_cons]
    obtain ⟨op0, e0, htr0, hop0, hff0, hst0⟩ := processFile_live_shape cfg st f
    obtain ⟨ops, extra, htr, hops, hff, hst⟩ :=
      foldl_live_shape cfg fs (processFile cfg false st f)
    refine ⟨op0 ++ ops, e0 ++ extra, ?_, ?_, ?_, ?_⟩
    · rw [htr, htr0, List.append_assoc]
    · intro op hop
      rcases List.mem_append.mp hop with h | h
      · exact hop0 op h
      · exact hops op h
    · rw [hff, hff0, List.append_assoc]
    · rw [hst, hst0]
      cases e0 <;> cases extra <;> simp

lemma load_to_db_ok (df : List Rec) (db : DB) (keys : List String) :
    (load_to_db df db keys true).2 = true := by
  unfold load_to_db
  split <;> simp

lemma processFile_all_ok (cfg : Config) (st : RunState) (f : InputFile)
    (hok : f.insertOk = true) :
    (processFile cfg false st f).status = st.status
    ∧ (processFile cfg false st f).failedFiles = st.failedFiles := by
  by_cases hb : f.batch.isEmpty
  · constructor <;> simp [processFile, hb]
  · constructor <;> simp [processFile, hb, hok, load_to_db_ok]

lemma foldl_live_all_ok (cfg : Config) :
    ∀ (files : List InputFile) (st : RunState),
      (∀ f ∈ files, f.insertOk = true) →
      (files.foldl (processFile cfg false) st).status = st.status
      ∧ (files.foldl (processFile cfg false) st).failedFiles = st.failedFiles
  | [], st, _ => ⟨rfl, rfl⟩
  | f :: fs, st, hall => by
    simp only [List.foldl_cons]
    have hf := processFile_all_ok cfg st f (hall f (List.mem_cons_self f fs))
    have ih := foldl_live_all_ok cfg fs (processFile cfg false st f)
      (fun g hg => hall g (List.mem_cons_of_mem f hg))
    exact ⟨ih.1.trans hf.1, ih.2.trans hf.2⟩

lemma finalizePhase_live (i : Nat) (hi : i ≠ 0) (status : String)
    (st1 : RunState) :
    finalizePhase false (some i) status st1
      = { st1 with
          db := finalizeRunRow i status st1.processedFiles st1.total st1.db,
          status := status,
          trace := st1.trace ++
            [AuditOp.finalizeRun i status st1.processedFiles st1.total] } := by
  simp only [finalizePhase]
  rw [if_pos ⟨trivial, hi⟩]

/-! ## Claim C8 -/

/-- C8: a dry run is pure with respect to durable state and run state.  The
database comes back unchanged (no contact rows, no audit record), the audit
trace is empty, and the DedupIndex stays empty across every file of the run
— so nothing accepted in an earlier file affects a later file — which also
makes the run's total the sum of each file's independently computed
accepted count. -/
theorem c8_dry_run_frame (cfg : Config) (seedOk createOk : Bool)
    (abortAfter : Option Nat) (db : DB) (files : List InputFile) :
    (runPipeline cfg true seedOk createOk abortAfter db files).db = db
    ∧ (runPipeline cfg true seedOk createOk abortAfter db files).trace = []
    ∧ (runPipeline cfg true seedOk createOk abortAfter db files).names = []
    ∧ (runPipeline cfg true seedOk createOk abortAfter db files).phones = []
    ∧ (runPipeline cfg true seedOk createOk none db files).total
        = (files.map fun f =>
            if f.batch.isEmpty then 0
            else (dedupeFile cfg [] [] f.batch).1.length).sum := by
  have hinv := foldl_dry_inv cfg (toProcessList abortAfter files) (dryStart db)
  have htot : (runPipeline cfg true seedOk createOk none db files).total
      = 0 + (files.map fun f =>
          if f.batch.isEmpty then 0
          else (dedupeFile cfg [] [] f.batch).1.length).sum :=
    foldl_dry_total cfg [] [] (toProcessList none files) (dryStart db) rfl rfl
  rw [Nat.zero_add] at htot
  exact ⟨hinv.1, hinv.2.2.2.2.1, hinv.2.1, hinv.2.2.1, htot⟩

/-! ## Claim C9 -/

/-- C9: in live mode with a successful run-record INSERT (and a nonzero
serial id, which the database guarantees), the audit trace is exactly one
`createRun` with status `running` before any file operation, followed by
per-file load operations, followed by exactly one `finalizeRun` carrying the
final status, the processed-file list and the total accepted count — emitted
on the `finally` path even when an unexpected error aborts the loop.  The
final status is `completed` or `failed`; it is `completed` exactly when no
abort occurred and no file's persistence failed, and in particular a run
whose files all insert successfully and which is not aborted completes. -/
theorem c9_run_record_lifecycle (cfg : Config) (seedOk : Bool)
    (abortAfter : Option Nat) (db : DB) (files : List InputFile)
    (hrid : db.nextRunId ≠ 0) :
    (∃ mid : List AuditOp,
      (runPipeline cfg false seedOk true abortAfter db files).trace
          = AuditOp.createRun db.nextRunId "running" cfg.tag :: mid
            ++ [AuditOp.finalizeRun db.nextRunId
                (runPipeline cfg false seedOk true abortAfter db files).status
                (runPipeline cfg false seedOk true abortAfter db
                  files).processedFiles
                (runPipeline cfg false seedOk true abortAfter db files).total]
      ∧ ∀ op ∈ mid, ∃ n ok, op = AuditOp.fileLoad n ok)
    ∧ ((runPipeline cfg false seedOk true abortAfter db files).status
          = "completed"
        ∨ (runPipeline cfg false seedOk true abortAfter db files).status
          = "failed")
    ∧ ((runPipeline cfg false seedOk true abortAfter db files).status
          = "completed"
        ↔ abortAfter = none
          ∧ (runPipeline cfg false seedOk true abortAfter db
              files).failedFiles = [])
    ∧ ((abortAfter = none ∧ ∀ f ∈ files, f.insertOk = true) →
        (runPipeline cfg false seedOk true abortAfter db files).status
          = "completed") := by
  obtain ⟨ops, extra, htr, hops, hff, hst⟩ :=
    foldl_live_shape cfg (toProcessList abortAfter files)
      (liveStart cfg true seedOk db)
  have htr2 : ((toProcessList abortAfter files).foldl (processFile cfg false)
      (liveStart cfg true seedOk db)).trace
        = [AuditOp.createRun db.nextRunId "running" cfg.tag] ++ ops := htr
  have hff2 : ((toProcessList abortAfter files).foldl (processFile cfg false)
      (liveStart cfg true seedOk db)).failedFiles = [] ++ extra := hff
  have hst2 : ((toProcessList abortAfter files).foldl (processFile cfg false)
      (liveStart cfg true seedOk db)).status
        = (if extra.isEmpty then "completed" else "failed") := hst
  rw [List.nil_append] at hff2
  suffices h :
      (∃ mid : List AuditOp,
        (finalizePhase false (some db.nextRunId)
            (if abortAfter.isSome then "failed"
              else ((toProcessList abortAfter files).foldl
                (processFile cfg false) (liveStart cfg true seedOk db)).status)
            ((toProcessList abortAfter files).foldl (processFile cfg false)
              (liveStart cfg true seedOk db))).trace
            = AuditOp.createRun db.nextRunId "running" cfg.tag :: mid
              ++ [AuditOp.finalizeRun db.nextRunId
                  (finalizePhase false (some db.nextRunId)
                    (if abortAfter.isSome then "failed"
                      else ((toProcessList abortAfter files).foldl
                        (processFile cfg false)
                        (liveStart cfg true seedOk db)).status)
                    ((toProcessList abortAfter files).foldl
                      (processFile cfg false)
                      (liveStart cfg true seedOk db))).status
                  (finalizePhase false (some db.nextRunId)
                    (if abortAfter.isSome then "failed"
                      else ((toProcessList abortAfter files).foldl
                        (processFile cfg false) (liveStart cfg true seedOk db)).status)
                    ((toProcessList abortAfter files).foldl
                      (processFile cfg false)
                      (liveStart cfg true seedOk db))).processedFiles
                  (finalizePhase false (some db.nextRunId)
                    (if abortAfter.isSome then "failed"
                      else ((toProcessList abortAfter files).foldl
                        (processFile cfg false) (liveStart cfg true seedOk db)).status)
                    ((toProcessList abortAfter files).foldl
                      (processFile cfg false)
                      (liveStart cfg true seedOk db))).total]
        ∧ ∀ op ∈ mid, ∃ n ok, op = AuditOp.fileLoad n ok)
      ∧ ((finalizePhase false (some db.nextRunId)
            (if abortAfter.isSome then "failed"
              else ((toProcessList abortAfter files).foldl
                (processFile cfg false) (liveStart cfg true seedOk db)).status)
            ((toProcessList abortAfter files).foldl (processFile cfg false)
              (liveStart cfg true seedOk db))).status = "completed"
          ∨ (finalizePhase false (some db.nextRunId)
            (if abortAfter.isSome then "failed"
              else ((toProcessList abortAfter files).foldl
                (processFile cfg false) (liveStart cfg true seedOk db)).status)
            ((toProcessList abortAfter files).foldl (processFile cfg false)
              (liveStart cfg true seedOk db))).status = "failed")
      ∧ ((finalizePhase false (some db.nextRunId)
            (if abortAfter.isSome then "failed"
              else ((toProcessList abortAfter files).foldl
                (processFile cfg false) (liveStart cfg true seedOk db)).status)
            ((toProcessList abortAfter files).foldl (processFile cfg false)
              (liveStart cfg true seedOk db))).status = "completed"
          ↔ abortAfter = none
            ∧ (finalizePhase false (some db.nextRunId)
              (if abortAfter.isSome then "failed"
                else ((toProcessList abortAfter files).foldl
                  (processFile cfg false) (liveStart cfg true seedOk db)).status)
              ((toProcessList abortAfter files).foldl (processFile cfg false)
                (liveStart cfg true seedOk db))).failedFiles = [])
      ∧ ((abortAfter = none ∧ ∀ f ∈ files, f.insertOk = true) →
          (finalizePhase false (some db.nextRunId)
            (if abortAfter.isSome then "failed"
              else ((toProcessList abortAfter files).foldl
                (processFile cfg false) (liveStart cfg true seedOk db)).status)
            ((toProcessList abortAfter files).foldl (processFile cfg false)
              (liveStart cfg true seedOk db))).status = "completed")
    from h
  rw [finalizePhase_live db.nextRunId hrid]
  refine ⟨⟨ops, ?_, hops⟩, ?_, ?_, ?_⟩
  · simp only [htr2]
    rfl
  · rw [hst2]
    rcases abortAfter <;> cases extra <;> simp
  · rw [hst2, hff2]
    rcases abortAfter with _ | k
    · cases extra <;> simp
    · cases extra <;> simp
  · rintro ⟨hab, hall⟩
    subst hab
    have hok := foldl_live_all_ok cfg (toProcessList none files)
      (liveStart cfg true seedOk db) hall
    simp only [Option.isSome_none, Bool.false_eq_true, if_false]
    exact hok.1

/-- Witness for `c9_run_record_lifecycle` at a concrete one-file run. -/
theorem c9_run_record_lifecycle_witness :
    (runPipeline (⟨false, 90, fun _ _ => 0, none⟩ : Config) false true true
        none emptyDB
        [⟨"f.csv", [mkRow (some "Acme") (some "9") none], ["k"], true⟩]).status
      = "completed" :=
  (c9_run_record_lifecycle (⟨false, 90, fun _ _ => 0, none⟩ : Config) true
      none emptyDB
      [⟨"f.csv", [mkRow (some "Acme") (some "9") none], ["k"], true⟩]
      (by decide)).2.2.2 ⟨rfl, by decide⟩

/-! ## Claim C10 -/

/-- A configuration with fuzzy matching enabled and an equality scorer. -/
def cfgT : Config := ⟨true, 90, fun a b => if a = b then 100 else 0, none⟩

/-- A database holding one persisted contact with phone `123`. -/
def dbC : DB := ⟨[⟨mkRow (some "Known") (some "123") none, none⟩], [], 0, [], 1⟩

/-- One input file whose only record reuses the persisted phone `123`. -/
def file1 : InputFile :=
  ⟨"f1.csv", [mkRow (some "Acme") (some "123") none], ["Company", "Phone"],
   true⟩

/-- C10: in dry-run mode the known-contacts index is never seeded: the
known-names and known-phones sets start empty whatever the persisted
database holds, so the run's accepted totals are identical over any two
databases and any seeding outcomes; consequently a dry run can accept (count
1) a record that the otherwise-identical live run rejects (count 0) as a
duplicate of an already-persisted contact. -/
theorem c10_dry_run_unseeded (cfg : Config) (seedOk seedOk2 createOk
    createOk2 : Bool) (db db2 : DB) (files : List InputFile) :
    ((runPipeline cfg true seedOk createOk none db files).names = []
      ∧ (runPipeline cfg true seedOk createOk none db files).phones = [])
    ∧ (runPipeline cfg true seedOk createOk none db files).total
        = (runPipeline cfg true seedOk2 createOk2 none db2 files).total
    ∧ ((runPipeline cfgT true true true none dbC [file1]).total = 1
        ∧ (runPipeline cfgT false true true none dbC [file1]).total = 0) := by
  have hinv := foldl_dry_inv cfg (toProcessList none files) (dryStart db)
  have htot : (runPipeline cfg true seedOk createOk none db files).total
      = 0 + (files.map fun f =>
          if f.batch.isEmpty then 0
          else (dedupeFile cfg [] [] f.batch).1.length).sum :=
    foldl_dry_total cfg [] [] (toProcessList none files) (dryStart db) rfl rfl
  have htot2 : (runPipeline cfg true seedOk2 createOk2 none db2 files).total
      = 0 + (files.map fun f =>
          if f.batch.isEmpty then 0
          else (dedupeFile cfg [] [] f.batch).1.length).sum :=
    foldl_dry_total cfg [] [] (toProcessList none files) (dryStart db2) rfl rfl
  refine ⟨⟨hinv.2.1, hinv.2.2.1⟩, ?_, by decide, by decide⟩
  rw [htot, htot2]

end MasterContact
